import Mathlib

/-!
Verification development for the image-translation orchestration engine
(dichtruyen). Shallow embedding of the core logic:
per-image two-stage pipeline (OCR extraction, then translation),
provider selection with quota-aware fallback, retry with exponential
backoff, deterministic text normalization, and per-item batch lifecycle.

Sources embedded:
- services/geminiService.ts : isQuotaError, retryWithBackoff,
  extractTextFromImage, translateImageContent
- services/claudeService.ts : translateImageContentWithClaude
- App.tsx : translateItem, handleFileChange, handleRetry, handleRemove,
  handleClearAll
- types.ts : SourceLanguage, ModelProvider, AppState, BatchItem,
  TranslationResult

JavaScript platform behaviour (truthiness, String methods restricted to
ASCII input, JSON.parse supplied as an oracle parameter) is modelled
explicitly below; each such modelling choice is noted at its definition.
-/

/-! ## Basic string helpers (model of JS string primitives, ASCII) -/

/-- Whether a list starts with the given pattern. First argument is the
pattern, second the list scanned. -/
def listStarts : List Char → List Char → Bool
  | [], _ => true
  | _ :: _, [] => false
  | a :: as, b :: bs => a == b && listStarts as bs

/-- Model of JS `String.prototype.includes` (substring containment). -/
def listIncludes (needle : List Char) : List Char → Bool
  | [] => needle.isEmpty
  | l@(_ :: rest) => listStarts needle l || listIncludes needle rest

/-- Model of JS `String.prototype.includes` on strings. -/
def strIncludes (hay needle : String) : Bool :=
  listIncludes needle.data hay.data

/-- Lowercasing of one character, ASCII range. -/
def jsLowerChar (c : Char) : Char :=
  if 65 ≤ c.toNat ∧ c.toNat ≤ 90 then Char.ofNat (c.toNat + 32) else c

/-- Model of JS `String.prototype.toLowerCase`, restricted to ASCII input
(the classification keywords compared against are ASCII). -/
def strLower (s : String) : String := String.mk (s.data.map jsLowerChar)

/-- Whitespace test used by the trim model (ASCII whitespace; the JS
original also trims rarer Unicode space characters). -/
def isJsSpace (c : Char) : Bool :=
  c == ' ' || c == '\t' || c == '\n' || c == '\r' || c == '\x0b' || c == '\x0c'

/-- Removal of leading whitespace characters. -/
def dropSpaces : List Char → List Char
  | [] => []
  | c :: rest => if isJsSpace c then dropSpaces rest else c :: rest

/-- Model of JS `String.prototype.trim` (both ends). -/
def jsTrim (s : String) : String :=
  String.mk ((dropSpaces (dropSpaces s.data.reverse).reverse))

/-! ## JS value and error model -/

/-- Model of a JavaScript value as produced by `JSON.parse`
(plus `undefined` for absent properties). Numbers are modelled as
integers; NaN and fractional values do not occur in the embedded code
paths. -/
inductive JsValue where
  | undefined
  | null
  | bool (b : Bool)
  | num (n : Int)
  | str (s : String)
  | arr (elems : List JsValue)
  | obj (fields : List (String × JsValue))

/-- JS truthiness of a value. -/
def jsTruthy : JsValue → Bool
  | .undefined => false
  | .null => false
  | .bool b => b
  | .num n => n != 0
  | .str s => s != ""
  | .arr _ => true
  | .obj _ => true

/-- Model of the JS `a || b` operator on values. -/
def jsOr (a b : JsValue) : JsValue := if jsTruthy a then a else b

/-- Model of JS property read `v.k` for values on which property access
does not throw (objects yield the field or undefined; primitives other
than null and undefined yield undefined since the embedded code only
reads ad hoc JSON properties from them). Object fields are treated as a
key-unique record, matching objects produced by `JSON.parse`. -/
def jsGet (v : JsValue) (k : String) : JsValue :=
  match v with
  | .obj fs =>
    match fs.find? (fun p => p.1 == k) with
    | some p => p.2
    | none => .undefined
  | _ => .undefined

/-- Model of JS `Array.isArray`. -/
def jsIsArray : JsValue → Bool
  | .arr _ => true
  | _ => false

/-- Whether the value is a JSON object. -/
def jsIsObj : JsValue → Bool
  | .obj _ => true
  | _ => false

/-- Model of a JavaScript error value as observed by the embedded code:
the properties it reads (`status`, `code`, `error.code`, `type`,
`message`) plus the result of the platform call `JSON.stringify(error)`,
which is modelled as a field because the embedded code treats it as an
opaque string. -/
structure JsError where
  status : Option Int := none
  code : Option Int := none
  nestedCode : Option Int := none
  jsType : Option String := none
  message : Option String := none
  stringified : String := "\x7b\x7d"

/-- Model of a thrown `new Error(msg)` value: only a message, and
`JSON.stringify` of an Error object yields an empty JSON object because
its properties are non-enumerable. -/
def jsThrownError (m : String) : JsError :=
  { message := some m }

/-- Model of `error?.status || error?.code || error?.error?.code`
(JS `||` chain: undefined and 0 are falsy and fall through; an all-falsy
chain yields a value that is never equal to 429, so it is collapsed to
none). -/
def jsErrorCode (e : JsError) : Option Int :=
  match e.status with
  | some n => if n != 0 then some n else
    match e.code with
    | some m => if m != 0 then some m else
      match e.nestedCode with
      | some p => if p != 0 then some p else none
      | none => none
    | none =>
      match e.nestedCode with
      | some p => if p != 0 then some p else none
      | none => none
  | none =>
    match e.code with
    | some m => if m != 0 then some m else
      match e.nestedCode with
      | some p => if p != 0 then some p else none
      | none => none
    | none =>
      match e.nestedCode with
      | some p => if p != 0 then some p else none
      | none => none

/-- Model of `error?.message || JSON.stringify(error)`. -/
def jsErrorMessage (e : JsError) : String :=
  match e.message with
  | some m => if m != "" then m else e.stringified
  | none => e.stringified

/-- Embedding of `isQuotaError` (geminiService.ts lines 27 to 35):
classification of an error as a quota or rate-limit signal. -/
def isQuotaError (e : JsError) : Bool :=
  jsErrorCode e == some 429 ||
  strIncludes (jsErrorMessage e) "429" ||
  strIncludes (strLower (jsErrorMessage e)) "quota" ||
  strIncludes (strLower (jsErrorMessage e)) "resource_exhausted"

/-! ## Backoff retrier -/

/-- Embedding of `retryWithBackoff` (geminiService.ts lines 38 to 53).
The operation is modelled as a stream of outcomes indexed by invocation
number, starting at index `i`. The result records the final outcome,
the number of times the operation was invoked, and the total simulated
delay slept (sum of the `wait(delay)` arguments). Defaults in the
source: `retries = 3`, `delay = 2000`. -/
def retryWithBackoff {V : Type} (op : Nat → Except JsError V)
    (i retries delay : Nat) : Except JsError V × Nat × Nat :=
  match op i with
  | .ok v => (.ok v, 1, 0)
  | .error e =>
    if isQuotaError e then
      match retries with
      | r + 1 =>
        let (res, calls, d) := retryWithBackoff op (i + 1) r (delay * 2)
        (res, calls + 1, delay + d)
      | 0 => (.error e, 1, 0)
    else (.error e, 1, 0)

/-! ## Text normalizer -/

/-- Model of JS `String.prototype.toUpperCase` applied to a single
character, restricted to ASCII (the translation targets normalized by
the source are instructed to be lowercase English). -/
def jsUpperChar (c : Char) : Char :=
  if 97 ≤ c.toNat ∧ c.toNat ≤ 122 then Char.ofNat (c.toNat - 32) else c

/-- Embedding of rule 1 of the post-processing
(`target.charAt(0).toUpperCase() + target.slice(1)`, guarded by
`target.length > 0`, geminiService.ts lines 233 to 235). -/
def capFirst : List Char → List Char
  | [] => []
  | c :: rest => jsUpperChar c :: rest

/-- Model of the JS regex word character class `[A-Za-z0-9_]`. -/
def isWordChar (c : Char) : Bool :=
  (97 ≤ c.toNat && c.toNat ≤ 122) || (65 ≤ c.toNat && c.toNat ≤ 90) ||
  (48 ≤ c.toNat && c.toNat ≤ 57) || c == '_'

/-- Word-character status of the character preceding the scan position
(none at the start of the string, hence a boundary). -/
def isWordOpt : Option Char → Bool
  | none => false
  | some c => isWordChar c

/-- Word-character status of the head of the remaining input (end of
string counts as a boundary). -/
def isWordHead : List Char → Bool
  | [] => false
  | c :: _ => isWordChar c

/-- Embedding of rule 2 of the post-processing
(`target.replace(/\bi\b/g, I)`, geminiService.ts line 238): every
occurrence of the letter i flanked by word boundaries in the original
string is replaced by uppercase I. The accumulator carries the
character preceding the scan position in the original string. -/
def replaceLoneI : Option Char → List Char → List Char
  | _, [] => []
  | prev, c :: rest =>
    (if c == 'i' && !isWordOpt prev && !isWordHead rest then 'I' else c)
      :: replaceLoneI (some c) rest

/-- Embedding of the full per-segment target normalization applied by
both translation variants (geminiService.ts lines 229 to 238 and
claudeService.ts lines 428 to 438): capitalize the first character,
then uppercase every standalone i. -/
def normalizeTarget (s : String) : String :=
  String.mk (replaceLoneI none (capFirst s.data))

/-! ## Data model (types.ts) -/

/-- Embedding of the `SourceLanguage` enum (types.ts). -/
inductive SourceLanguage where
  | KOREAN
  | SPANISH
  | AUTO
deriving DecidableEq

/-- String value carried by each `SourceLanguage` enum member
(types.ts: Korean, Spanish, Auto-Detect). -/
def SourceLanguage.label : SourceLanguage → String
  | .KOREAN => "Korean"
  | .SPANISH => "Spanish"
  | .AUTO => "Auto-Detect"

/-- Embedding of the `ModelProvider` enum (types.ts). -/
inductive ModelProvider where
  | GEMINI
  | CLAUDE
deriving DecidableEq

/-- Embedding of a translation segment. The source field is kept as the
raw JS value copied from the parsed response (`source: seg.source`);
the target field is the normalized string. -/
structure TransSegment where
  source : JsValue
  target : String

/-- Embedding of `TranslationResult` (types.ts). The detected language
is kept as the raw JS value the code stores there (the code never
inspects it). -/
structure TranslationResult where
  detectedLanguage : JsValue
  segments : List TransSegment

/-! ## Post-processing of a parsed provider response -/

/-- Whether JS property access on the value throws a TypeError
(exactly null and undefined). -/
def jsNullish : JsValue → Bool
  | .null => true
  | .undefined => true
  | _ => false

/-- Embedding of the per-segment mapping shared by both variants
(geminiService.ts lines 229 to 243, claudeService.ts lines 428 to 443):
`let target = seg.target || ""` followed by the two normalization
rules. Returns none when the JS code would throw a TypeError, which
happens exactly when the target field holds a truthy non-string (a
string method is then called on a non-string); property access on a
null or undefined segment element also throws. -/
def mapSegment (seg : JsValue) : Option TransSegment :=
  if jsNullish seg then none
  else
    match jsOr (jsGet seg "target") (.str "") with
    | .str s => some ⟨jsGet seg "source", normalizeTarget s⟩
    | _ => none

/-- Per-segment mapping over the raw segments array. -/
def mapSegments : List JsValue → Option (List TransSegment)
  | [] => some []
  | seg :: rest =>
    match mapSegment seg, mapSegments rest with
    | some s, some ss => some (s :: ss)
    | _, _ => none

/-- Embedding of `Array.isArray(parsed.segments) ? parsed.segments :
[]` (geminiService.ts line 226 and claudeService.ts line 428). -/
def segmentsRawOf (parsed : JsValue) : List JsValue :=
  match jsGet parsed "segments" with
  | .arr xs => xs
  | _ => []

/-- Embedding of the response post-processing of the Gemini variant
(geminiService.ts lines 225 to 251): segments default to the empty
array unless `Array.isArray(parsed.segments)`, each target is
normalized, and `detectedLanguage` is `parsed.detectedLanguage ||
sourceLanguage` where `sourceLanguage` is the enum string value.
Returns none when the JS code would throw a TypeError (property access
on null or undefined, or a truthy non-string target). -/
def processParsedGemini (parsed : JsValue) (sourceLanguage : SourceLanguage) :
    Option TranslationResult :=
  if jsNullish parsed then none
  else
    match mapSegments (segmentsRawOf parsed) with
    | some segs =>
      some ⟨jsOr (jsGet parsed "detectedLanguage") (.str sourceLanguage.label), segs⟩
    | none => none

/-- Embedding of the response post-processing of the Claude variant
(claudeService.ts lines 427 to 451): identical segment handling, but
`detectedLanguage` is `parsed.detectedLanguage || (sourceLanguage ===
SourceLanguage.AUTO ? "Unknown" : sourceLanguage)`. -/
def processParsedClaude (parsed : JsValue) (sourceLanguage : SourceLanguage) :
    Option TranslationResult :=
  if jsNullish parsed then none
  else
    match mapSegments (segmentsRawOf parsed) with
    | some segs =>
      some ⟨jsOr (jsGet parsed "detectedLanguage")
              (.str (if sourceLanguage = .AUTO then "Unknown" else sourceLanguage.label)),
            segs⟩
    | none => none

/-! ## Helpers for optional string credentials -/

/-- JS truthiness of an optional string parameter (undefined or the
empty string are falsy). -/
def optTruthy : Option String → Bool
  | some s => s != ""
  | none => false

/-- Model of the JS `a || b` operator on optional strings. -/
def jsOrOpt (a b : Option String) : Option String :=
  if optTruthy a then a else b

/-! ## Provider calls and pipeline traces -/

/-- Model of the SDK response object as read by the source: only its
`text` field is used, which may be undefined. -/
structure GenResponse where
  text : Option String

/-- Gemini model tier used by a translation call
(`TRANSLATION_MODEL_PRO` or `TRANSLATION_MODEL_FLASH`). -/
inductive GeminiModel where
  | pro
  | flash
deriving DecidableEq

/-- Network call event recorded by a pipeline run. Each event stands
for one retry-wrapped remote attempt; the key recorded on a Gemini
event is the credential resolved by `getAiClient` (explicit key or the
process-level default). -/
inductive PipelineCall where
  | ocrCall
  | geminiTranslateCall (model : GeminiModel) (key : Option String)
  | claudeTranslateCall
deriving DecidableEq

/-- Embedding of `getAiClient` key resolution (geminiService.ts lines
15 to 24): explicit key if truthy, else `process.env.API_KEY`. -/
def resolveKey (apiKey envApiKey : Option String) : Option String :=
  jsOrOpt apiKey envApiKey

/-- Embedding of `extractTextFromImage` (geminiService.ts lines 56 to
102). The retry-wrapped `generateContent` call with the OCR model is
modelled by its outcome `attempt`; the image payload and credential
select which outcome the oracle yields and are not otherwise inspected.
On success an absent or empty response text yields the empty string,
otherwise the text is trimmed; on failure the error is mapped to a
quota-specific or generic message. One `ocrCall` event is always
recorded. -/
def extractTextFromImage (attempt : Except JsError GenResponse) :
    Except String String × List PipelineCall :=
  match attempt with
  | .ok r =>
    (.ok (match r.text with
      | none => ""
      | some t => if t == "" then "" else jsTrim t), [.ocrCall])
  | .error e =>
    (.error (if isQuotaError e then
        "Gemini API Quota Exceeded (OCR). Please check your API key."
      else "Failed to extract text from image using Gemini."), [.ocrCall])

/-- Embedding of the pro-to-flash fallback block of
`translateImageContent` (geminiService.ts lines 193 to 207): attempt
the pro model with the pro client; on a quota-classified failure issue
exactly one fallback attempt with the flash model and the flash client;
rethrow any non-quota failure. Each attempt is the retry-wrapped
`executeTranslation` and is modelled by its outcome. -/
def geminiTranslateStrategy (proKey flashKey : Option String)
    (proAttempt flashAttempt : Except JsError GenResponse) :
    Except JsError GenResponse × List PipelineCall :=
  match proAttempt with
  | .ok r => (.ok r, [.geminiTranslateCall .pro proKey])
  | .error e =>
    if isQuotaError e then
      (flashAttempt,
       [.geminiTranslateCall .pro proKey, .geminiTranslateCall .flash flashKey])
    else (.error e, [.geminiTranslateCall .pro proKey])

/-- Message of the platform TypeError raised when a segment target is a
truthy non-string; its exact wording is platform-defined and only its
lack of quota keywords matters downstream. -/
def typeErrorMessage : String := "seg.target.replace is not a function"

/-- Embedding of the catch block of `translateImageContent`
(geminiService.ts lines 253 to 261): quota errors surface a
quota-specific message, everything else a generic one. -/
def geminiCatch (e : JsError) : String :=
  if isQuotaError e then
    "Gemini API Quota Exceeded. Please check your API key in Settings."
  else "Failed to process image. Please try again."

/-- Fenced JSON recovery of the Gemini variant (geminiService.ts line
217): first match of the regex for a fenced json block, returning the
captured body. `splitAtFirst` finds the first occurrence of the
pattern, returning the part before it and the part after it. -/
def splitAtFirst (needle : List Char) : List Char → Option (List Char × List Char)
  | [] => if needle.isEmpty then some ([], []) else none
  | l@(c :: rest) =>
    if listStarts needle l then some ([], List.drop needle.length l)
    else match splitAtFirst needle rest with
      | some (b, a) => some (c :: b, a)
      | none => none

/-- First match of the fenced-block regex: at each position try to read
the opening fence and then the shortest span up to a closing fence,
advancing one character on failure exactly as regex scanning does. -/
def matchFencedJson (l : List Char) : Option (List Char) :=
  match l with
  | [] => none
  | _ :: rest =>
    if listStarts "```json\n".data l then
      match splitAtFirst "\n```".data (List.drop 8 l) with
      | some (mid, _) => some mid
      | none => matchFencedJson rest
    else matchFencedJson rest

/-- Embedding of the JSON parsing of the Gemini variant
(geminiService.ts lines 212 to 223): direct `JSON.parse`, then on
failure the fenced-block recovery, then failure. `JSON.parse` is a
platform function and is supplied as the oracle `jsonParse`. -/
def geminiParse (jsonParse : String → Option JsValue) (t : String) :
    Option JsValue :=
  match jsonParse t with
  | some p => some p
  | none =>
    match matchFencedJson t.data with
    | some mid => jsonParse (String.mk mid)
    | none => none

/-- Embedding of `translateImageContent` (geminiService.ts lines 104 to
262): resolve the two clients, run the pro-to-flash strategy, then
require a response text, parse it, post-process the parsed value, and
map any thrown error through the catch block. The image payload and
prompt only select the oracle outcomes. -/
def translateImageContent (sourceLanguage : SourceLanguage)
    (apiKey proApiKey envApiKey : Option String)
    (jsonParse : String → Option JsValue)
    (proAttempt flashAttempt : Except JsError GenResponse) :
    Except String TranslationResult × List PipelineCall :=
  let flashKey := resolveKey apiKey envApiKey
  let proKey := resolveKey (jsOrOpt proApiKey apiKey) envApiKey
  let (resp, trace) := geminiTranslateStrategy proKey flashKey proAttempt flashAttempt
  let result : Except String TranslationResult :=
    match resp with
    | .error e => .error (geminiCatch e)
    | .ok r =>
      match r.text with
      | none => .error (geminiCatch (jsThrownError "No response from Gemini"))
      | some t =>
        if t == "" then .error (geminiCatch (jsThrownError "No response from Gemini"))
        else match geminiParse jsonParse t with
          | none => .error (geminiCatch (jsThrownError "Invalid JSON response from Gemini"))
          | some parsed =>
            match processParsedGemini parsed sourceLanguage with
            | some tr => .ok tr
            | none => .error (geminiCatch (jsThrownError typeErrorMessage))
  (result, trace)

/-! ## Claude variant (claudeService.ts) -/

/-- Model of JS `String.prototype.indexOf` for a single character,
returning -1 when absent. -/
def jsIndexOfAux (c : Char) : List Char → Nat → Int
  | [], _ => -1
  | d :: rest, i => if d == c then (i : Int) else jsIndexOfAux c rest (i + 1)

/-- Index of the first occurrence of a character, or -1. -/
def jsIndexOf (c : Char) (l : List Char) : Int := jsIndexOfAux c l 0

/-- Model of JS `String.prototype.lastIndexOf` for a single character,
returning -1 when absent. -/
def jsLastIndexOfAux (c : Char) : List Char → Nat → Int → Int
  | [], _, acc => acc
  | d :: rest, i, acc =>
    jsLastIndexOfAux c rest (i + 1) (if d == c then (i : Int) else acc)

/-- Index of the last occurrence of a character, or -1. -/
def jsLastIndexOf (c : Char) (l : List Char) : Int := jsLastIndexOfAux c l 0 (-1)

/-- Model of JS `String.prototype.substring(a, b)` for the in-bounds,
ordered indices produced by the guarded brace search. -/
def jsSubstring (l : List Char) (a b : Nat) : List Char :=
  (l.take b).drop a

/-- Length of the fence token matched at the head of the list by the
global regex used in the fallback cleanup (claudeService.ts line 416):
the first alternative (literally three backticks, then json, then an
optional newline) is preferred, then the second (an optional newline
and three backticks); 0 when no alternative matches here. -/
def fenceSkip (l : List Char) : Nat :=
  if listStarts "```json\n".data l then 8
  else if listStarts "```json".data l then 7
  else if listStarts "\n```".data l then 4
  else if listStarts "```".data l then 3
  else 0

/-- Global replacement of every fence token by the empty string,
scanning left to right as the JS regex engine does. -/
def stripFences (l : List Char) : List Char :=
  match l with
  | [] => []
  | c :: rest =>
    let k := fenceSkip (c :: rest)
    if k = 0 then c :: stripFences rest
    else stripFences (List.drop (k - 1) rest)
termination_by l.length
decreasing_by
  · simp
  · simp only [List.length_cons, List.length_drop]; omega

/-- Embedding of the robust JSON extraction of the Claude variant
(claudeService.ts lines 407 to 417): take the substring from the first
opening brace to the last closing brace when such a pair exists in
order, otherwise strip fenced-block markers and trim. -/
def robustExtract (text : String) : String :=
  let l := text.data
  let firstBrace := jsIndexOf '\x7b' l
  let lastBrace := jsLastIndexOf '\x7d' l
  if firstBrace != -1 && lastBrace != -1 && firstBrace < lastBrace then
    String.mk (jsSubstring l firstBrace.toNat (lastBrace.toNat + 1))
  else jsTrim (String.mk (stripFences l))

/-- Embedding of the catch block of `translateImageContentWithClaude`
(claudeService.ts lines 453 to 472): map an error from the Claude call
or from the response handling to a user-facing message. -/
def claudeCatch (modelId : String) (e : JsError) : String :=
  if e.status == some 401 then
    "Invalid Claude API Key. Please check your key in Settings."
  else if e.status == some 404 then
    "Model " ++ modelId ++ " not found. Please select a valid model in Settings."
  else if e.jsType == some "overloaded_error" then
    "Claude API is currently overloaded. Please try again in a moment."
  else
    let errorMessage := match e.message with
      | some m => m
      | none => ""
    if strIncludes errorMessage "Failed to parse response" then
      "Translation failed due to invalid response format."
    else if errorMessage != "" then errorMessage
    else "Failed to translate text with Claude."

/-- Embedding of `translateImageContentWithClaude` (claudeService.ts
lines 266 to 473). Remote interactions are modelled by their outcomes:
`ocrAttempt` is the retry-wrapped Gemini OCR call (consumed through
`extractTextFromImage`), and `claudeCall` is the Anthropic messages
call, yielding the text of the first text content block (none when the
response has no text block). Steps: require a Claude credential
(explicit or `process.env.CLAUDE_API_KEY`), run the OCR extraction and
surface its failure, short-circuit on empty extracted text, otherwise
issue the Claude call, robustly extract and parse its JSON, and
post-process; any thrown error is mapped through the catch block. -/
def translateImageContentWithClaude (sourceLanguage : SourceLanguage)
    (apiKey envClaudeKey : Option String) (modelId : String)
    (jsonParse : String → Option JsValue)
    (ocrAttempt : Except JsError GenResponse)
    (claudeCall : Except JsError (Option String)) :
    Except String TranslationResult × List PipelineCall :=
  if !optTruthy (jsOrOpt apiKey envClaudeKey) then
    (.error "Claude API Key is missing. Please add it in Settings.", [])
  else
    match extractTextFromImage ocrAttempt with
    | (.error msg, tr) =>
      (.error (if msg != "" then msg else
        "Gemini failed to extract text from the image. Cannot proceed with Claude translation."),
       tr)
    | (.ok extractedText, tr) =>
      if extractedText == "" || (jsTrim extractedText).length == 0 then
        (.ok ⟨.str "Unknown", []⟩, tr)
      else
        let result : Except String TranslationResult :=
          match claudeCall with
          | .error e => .error (claudeCatch modelId e)
          | .ok none =>
            .error (claudeCatch modelId (jsThrownError "No text response from Claude"))
          | .ok (some text) =>
            match jsonParse (robustExtract text) with
            | none =>
              .error (claudeCatch modelId
                (jsThrownError "Failed to parse response. The model returned invalid JSON."))
            | some parsed =>
              match processParsedClaude parsed sourceLanguage with
              | some tres => .ok tres
              | none => .error (claudeCatch modelId (jsThrownError typeErrorMessage))
        (result, tr ++ [.claudeTranslateCall])

/-! ## Batch orchestrator (App.tsx) -/

/-- Embedding of the `AppState` enum (types.ts). -/
inductive AppState where
  | IDLE
  | ANALYZING
  | SUCCESS
  | ERROR
deriving DecidableEq

/-- Embedding of `BatchItem` (types.ts), restricted to the fields the
orchestrator logic reads or writes; the image payload fields (file,
previewUrl, base64Data, mimeType) are carried through unchanged by
every update and are omitted. Identity is a natural number standing
for the `crypto.randomUUID()` value. -/
structure BatchItem where
  id : Nat
  status : AppState
  result : Option TranslationResult
  error : Option String

/-- Credential and provider configuration visible to `translateItem`
(App.tsx state plus process environment). -/
structure AppSettings where
  claudeApiKey : String
  geminiApiKey : String
  geminiProApiKey : String
  envClaudeKey : Option String
  envApiKey : Option String

/-- JS truthiness of a plain string state value. -/
def strTruthy (s : String) : Bool := s != ""

/-- Missing-credential message for the Claude provider (App.tsx line
96). -/
def claudeKeyMissingMsg : String :=
  "Missing Claude API Key. Click the settings gear to add your key."

/-- Missing-credential message for the Gemini key required for OCR
(App.tsx line 109). -/
def geminiKeyMissingMsg : String :=
  "Missing Gemini API Key (Required for OCR). Click the settings gear to add your key."

/-- One `setItems` update applied to the targeted item by
`translateItem` (App.tsx lines 93, 106, 116, 139, 146). Each variant
records exactly the fields its object spread overrides; all other
fields of the item are kept. -/
inductive ItemUpdate where
  | toError (msg : String)
  | toAnalyzing
  | toSuccess (r : TranslationResult)

/-- Application of one update to one item, following the object
spreads: the error update keeps the result field, the analyzing update
clears the error and keeps the result, the success update keeps the
error field. -/
def applyUpdate : ItemUpdate → BatchItem → BatchItem
  | .toError msg, i => { i with status := .ERROR, error := some msg }
  | .toAnalyzing, i => { i with status := .ANALYZING, error := none }
  | .toSuccess r, i => { i with status := .SUCCESS, result := some r }

/-- Embedding of `translateItem` (App.tsx lines 88 to 152) at the
granularity of its `setItems` calls. The translation service call is
modelled by its outcome (the caught exception branch stores
`e.message`, and both services only throw `Error` values). Returns the
ordered list of updates applied to the item, whether the settings
modal was opened, and the number of translation service invocations.
The two validation branches touch the network zero times. -/
def translateItemUpdates (cfg : AppSettings) (provider : ModelProvider)
    (outcome : Except String TranslationResult) :
    List ItemUpdate × Bool × Nat :=
  if provider = .CLAUDE && !strTruthy cfg.claudeApiKey && !optTruthy cfg.envClaudeKey then
    ([.toError claudeKeyMissingMsg], true, 0)
  else if !(strTruthy cfg.geminiApiKey || optTruthy cfg.envApiKey) then
    ([.toError geminiKeyMissingMsg], true, 0)
  else
    match outcome with
    | .ok r => ([.toAnalyzing, .toSuccess r], false, 1)
    | .error msg => ([.toAnalyzing, .toError msg], false, 1)

/-- Orchestrator state: the item collection, the settings-modal flag,
and the id counter standing for uuid freshness. -/
structure OrchState where
  items : List BatchItem
  settingsOpen : Bool
  nextId : Nat

/-- Embedding of one `setItems(prev => prev.map(i => i.id === id ? upd
: i))` call. -/
def setItemsById (id : Nat) (u : ItemUpdate) (items : List BatchItem) :
    List BatchItem :=
  items.map fun i => if i.id = id then applyUpdate u i else i

/-- Sequential application of the updates of one `translateItem` run to
one item. -/
def applyUpdates (ups : List ItemUpdate) (i : BatchItem) : BatchItem :=
  ups.foldl (fun it u => applyUpdate u it) i

/-- One `translateItem` invocation against the orchestrator state:
apply its updates to the targeted item, merge the settings-modal
signal, and report the network call count. -/
def runItem (cfg : AppSettings) (provider : ModelProvider)
    (outcome : Except String TranslationResult) (id : Nat)
    (s : OrchState) : OrchState × Nat :=
  ({ items := (translateItemUpdates cfg provider outcome).1.foldl
        (fun its u => setItemsById id u its) s.items,
     settingsOpen := s.settingsOpen || (translateItemUpdates cfg provider outcome).2.1,
     nextId := s.nextId },
   (translateItemUpdates cfg provider outcome).2.2)

/-- Fresh Idle items created by `handleFileChange` (App.tsx lines 59 to
73) for a batch of accepted files, with consecutive fresh ids. -/
def mkNewItems (startId : Nat) : Nat → List BatchItem
  | 0 => []
  | k + 1 => ⟨startId, .IDLE, none, none⟩ :: mkNewItems (startId + 1) k

/-- Dispatch of `translateItem` for each newly added item in order
(App.tsx lines 83 to 85); each item consumes its own service outcome.
Returns the final state and the total network call count. -/
def dispatchAll (cfg : AppSettings) (provider : ModelProvider) :
    List (Except String TranslationResult) → Nat → OrchState → OrchState × Nat
  | [], _, s => (s, 0)
  | o :: os, id, s =>
    ((dispatchAll cfg provider os (id + 1) (runItem cfg provider o id s).1).1,
     (runItem cfg provider o id s).2
       + (dispatchAll cfg provider os (id + 1) (runItem cfg provider o id s).1).2)

/-- Embedding of `handleFileChange` (App.tsx lines 52 to 86): append
one Idle item per accepted file, then trigger `translateItem` for each
new item. -/
def addFilesOp (cfg : AppSettings) (provider : ModelProvider)
    (outcomes : List (Except String TranslationResult)) (s : OrchState) :
    OrchState × Nat :=
  dispatchAll cfg provider outcomes s.nextId
    { items := s.items ++ mkNewItems s.nextId outcomes.length,
      settingsOpen := s.settingsOpen,
      nextId := s.nextId + outcomes.length }

/-- Embedding of `handleRemove` (App.tsx lines 162 to 164). -/
def removeOp (id : Nat) (s : OrchState) : OrchState :=
  { s with items := s.items.filter (fun i => !(i.id = id)) }

/-- Embedding of `handleClearAll` (App.tsx lines 190 to 192). -/
def clearOp (s : OrchState) : OrchState :=
  { s with items := [] }

/-- Orchestrator states reachable through the user-facing operations.
The retry constructor requires the found item to be in the Error
state, because the Retry control is rendered only inside the Error
card (App.tsx lines 430 to 440), and `handleRetry` dispatches on the
item found by id (App.tsx lines 154 to 160). Configuration, provider
selection and service outcomes may differ at every step. -/
inductive Reachable : OrchState → Prop
  | init : Reachable ⟨[], false, 0⟩
  | addFiles (cfg : AppSettings) (provider : ModelProvider)
      (outcomes : List (Except String TranslationResult)) (s : OrchState) :
      Reachable s → Reachable (addFilesOp cfg provider outcomes s).1
  | retry (cfg : AppSettings) (provider : ModelProvider)
      (outcome : Except String TranslationResult) (s : OrchState)
      (id : Nat) (item : BatchItem) :
      Reachable s → s.items.find? (fun i => i.id = id) = some item →
      item.status = .ERROR → Reachable (runItem cfg provider outcome id s).1
  | remove (s : OrchState) (id : Nat) :
      Reachable s → Reachable (removeOp id s)
  | clear (s : OrchState) :
      Reachable s → Reachable (clearOp s)

/-! ## Checker predicates used by the claim statements -/

/-- Whether every translation call in a pipeline trace is preceded by
an extraction call; the flag records whether an extraction call has
been seen. -/
def ocrPrecedes : Bool → List PipelineCall → Bool
  | _, [] => true
  | _, .ocrCall :: rest => ocrPrecedes true rest
  | seen, _ :: rest => seen && ocrPrecedes seen rest

/-- Whether the list contains a standalone lowercase i, with the same
word-boundary computation as the replacement; the first argument is the
character preceding the scan position. -/
def hasLoneLowerI : Option Char → List Char → Bool
  | _, [] => false
  | prev, c :: rest =>
    (c == 'i' && !isWordOpt prev && !isWordHead rest) || hasLoneLowerI (some c) rest

/-! ## Helper lemmas about characters -/

lemma char_toNat_ofNat {n : Nat} (h1 : n < 55296) : (Char.ofNat n).toNat = n := by
  have hv : n.isValidChar := Or.inl h1
  simp only [Char.ofNat, hv, dif_pos, Char.ofNatAux, Char.toNat, UInt32.toNat]
  simp

lemma char_eq_of_toNat {a b : Char} (h : a.toNat = b.toNat) : a = b := by
  apply Char.eq_of_val_eq
  exact UInt32.ext h

lemma char_ne_of_toNat {a b : Char} (h : a.toNat ≠ b.toNat) : a ≠ b :=
  fun he => h (he ▸ rfl)

lemma uint32_le_toNat {a b : UInt32} : a ≤ b ↔ a.toNat ≤ b.toNat := by
  rw [UInt32.le_def, BitVec.le_def]; rfl

lemma isUpper_of_toNat {c : Char} (h1 : 65 ≤ c.toNat) (h2 : c.toNat ≤ 90) :
    c.isUpper = true := by
  simp only [Char.isUpper, Bool.and_eq_true, decide_eq_true_eq]
  refine ⟨?_, ?_⟩
  · show (65 : UInt32) ≤ c.val
    rw [uint32_le_toNat]
    exact h1
  · show c.val ≤ (90 : UInt32)
    rw [uint32_le_toNat]
    exact h2

lemma isLower_toNat {c : Char} (h : c.isLower = true) :
    97 ≤ c.toNat ∧ c.toNat ≤ 122 := by
  simp only [Char.isLower, Bool.and_eq_true, decide_eq_true_eq] at h
  obtain ⟨a, b⟩ := h
  rw [ge_iff_le, uint32_le_toNat] at a
  rw [uint32_le_toNat] at b
  exact ⟨a, b⟩

lemma jsUpperChar_toNat (c : Char) :
    (jsUpperChar c).toNat =
      if 97 ≤ c.toNat ∧ c.toNat ≤ 122 then c.toNat - 32 else c.toNat := by
  unfold jsUpperChar
  by_cases h : 97 ≤ c.toNat ∧ c.toNat ≤ 122
  · rw [if_pos h, if_pos h]
    exact char_toNat_ofNat (by omega)
  · rw [if_neg h, if_neg h]

lemma jsUpperChar_idem (c : Char) : jsUpperChar (jsUpperChar c) = jsUpperChar c := by
  apply char_eq_of_toNat
  rw [jsUpperChar_toNat, jsUpperChar_toNat]
  by_cases h : 97 ≤ c.toNat ∧ c.toNat ≤ 122
  · simp only [if_pos h]
    rw [if_neg (by omega)]
  · simp only [if_neg h]

lemma jsUpperChar_ne_i (c : Char) : (jsUpperChar c == 'i') = false := by
  rw [beq_eq_false_iff_ne]
  apply char_ne_of_toNat
  rw [jsUpperChar_toNat]
  have hi : Char.toNat 'i' = 105 := by decide
  rw [hi]
  by_cases h : 97 ≤ c.toNat ∧ c.toNat ≤ 122
  · rw [if_pos h]; omega
  · rw [if_neg h]; omega

/-! ## Helper lemmas about the normalizer -/

lemma isWordHead_replaceLoneI (p : Option Char) (l : List Char) :
    isWordHead (replaceLoneI p l) = isWordHead l := by
  cases l with
  | nil => rfl
  | cons c rest =>
    show isWordHead ((if c == 'i' && !isWordOpt p && !isWordHead rest then 'I' else c)
        :: replaceLoneI (some c) rest) = isWordChar c
    by_cases h : (c == 'i' && !isWordOpt p && !isWordHead rest) = true
    · rw [if_pos h]
      have hc : c = 'i' := by
        simp only [Bool.and_eq_true, beq_iff_eq] at h
        exact h.1.1
      subst hc
      rfl
    · rw [if_neg h]
      rfl

lemma replaceLoneI_idem (l : List Char) : ∀ p q : Option Char,
    isWordOpt p = isWordOpt q →
    replaceLoneI p (replaceLoneI q l) = replaceLoneI q l := by
  induction l with
  | nil => intro p q _; rfl
  | cons c rest ih =>
    intro p q hpq
    show replaceLoneI p ((if c == 'i' && !isWordOpt q && !isWordHead rest then 'I' else c)
        :: replaceLoneI (some c) rest) = _
    by_cases h : (c == 'i' && !isWordOpt q && !isWordHead rest) = true
    · rw [if_pos h]
      have hc : c = 'i' := by
        simp only [Bool.and_eq_true, beq_iff_eq] at h
        exact h.1.1
      show (if ('I' == 'i') && !isWordOpt p && !isWordHead (replaceLoneI (some c) rest)
          then 'I' else 'I') :: replaceLoneI (some 'I') (replaceLoneI (some c) rest)
        = (if c == 'i' && !isWordOpt q && !isWordHead rest then 'I' else c)
            :: replaceLoneI (some c) rest
      rw [ite_self, if_pos h]
      have : replaceLoneI (some 'I') (replaceLoneI (some c) rest) = replaceLoneI (some c) rest := by
        apply ih
        subst hc
        rfl
      rw [this]
    · rw [if_neg h]
      show (if c == 'i' && !isWordOpt p && !isWordHead (replaceLoneI (some c) rest)
          then 'I' else c) :: replaceLoneI (some c) (replaceLoneI (some c) rest)
        = replaceLoneI q (c :: rest)
      rw [isWordHead_replaceLoneI, hpq, ih (some c) (some c) rfl]
      show (if c == 'i' && !isWordOpt q && !isWordHead rest then 'I' else c)
          :: replaceLoneI (some c) rest
        = replaceLoneI q (c :: rest)
      rfl

lemma replaceLoneI_capFirst_cons (c : Char) (rest : List Char) :
    replaceLoneI none (capFirst (c :: rest)) =
      jsUpperChar c :: replaceLoneI (some (jsUpperChar c)) rest := by
  show (if jsUpperChar c == 'i' && !isWordOpt none && !isWordHead rest
      then 'I' else jsUpperChar c) :: replaceLoneI (some (jsUpperChar c)) rest = _
  rw [jsUpperChar_ne_i]
  rfl

lemma capFirst_replace_fix (l : List Char) :
    capFirst (replaceLoneI none (capFirst l)) = replaceLoneI none (capFirst l) := by
  cases l with
  | nil => rfl
  | cons c rest =>
    rw [replaceLoneI_capFirst_cons]
    show jsUpperChar (jsUpperChar c) :: replaceLoneI (some (jsUpperChar c)) rest = _
    rw [jsUpperChar_idem]

lemma hasLoneLowerI_replaceLoneI (l : List Char) : ∀ p q : Option Char,
    isWordOpt p = isWordOpt q →
    hasLoneLowerI p (replaceLoneI q l) = false := by
  induction l with
  | nil => intro p q _; rfl
  | cons c rest ih =>
    intro p q hpq
    show hasLoneLowerI p ((if c == 'i' && !isWordOpt q && !isWordHead rest then 'I' else c)
        :: replaceLoneI (some c) rest) = false
    by_cases h : (c == 'i' && !isWordOpt q && !isWordHead rest) = true
    · rw [if_pos h]
      have hc : c = 'i' := by
        simp only [Bool.and_eq_true, beq_iff_eq] at h
        exact h.1.1
      show ((('I' == 'i') && !isWordOpt p && !isWordHead (replaceLoneI (some c) rest))
          || hasLoneLowerI (some 'I') (replaceLoneI (some c) rest)) = false
      rw [ih (some 'I') (some c) (by subst hc; rfl)]
      simp
    · rw [if_neg h]
      show (((c == 'i') && !isWordOpt p && !isWordHead (replaceLoneI (some c) rest))
          || hasLoneLowerI (some c) (replaceLoneI (some c) rest)) = false
      rw [isWordHead_replaceLoneI, hpq, ih (some c) (some c) rfl]
      rw [Bool.or_false, ← Bool.not_eq_true]
      exact h

lemma jsUpperChar_isUpper (c : Char) (h : (jsUpperChar c).isAlpha = true) :
    (jsUpperChar c).isUpper = true := by
  have h2 : (jsUpperChar c).isUpper = true ∨ (jsUpperChar c).isLower = true := by
    simpa [Char.isAlpha, Bool.or_eq_true] using h
  rcases h2 with h2 | h2
  · exact h2
  · exfalso
    have h3 := isLower_toNat h2
    rw [jsUpperChar_toNat] at h3
    by_cases hr : 97 ≤ c.toNat ∧ c.toNat ≤ 122
    · rw [if_pos hr] at h3
      omega
    · rw [if_neg hr] at h3
      exact hr h3

/-- Claim C6: the text normalizer applied to every segment target
(capitalize the first character, then uppercase every standalone
word-boundary i) is idempotent: for all text T,
normalize(normalize(T)) = normalize(T). -/
theorem normalizeTarget_idempotent :
    ∀ s : String, normalizeTarget (normalizeTarget s) = normalizeTarget s := by
  intro s
  show String.mk (replaceLoneI none (capFirst (replaceLoneI none (capFirst s.data)))) = _
  rw [capFirst_replace_fix, replaceLoneI_idem _ none none rfl]
  rfl

/-- Claim C7: for every non-empty text the first character of the
normalized text is uppercase if it is alphabetic; no standalone
lowercase i survives normalization (word-boundary occurrences,
including the head of contractions, are uppercased), while words
merely containing the letter i, such as this, is and it, are
unaffected. -/
theorem normalizer_capitalization_rules :
    (∀ s : String, s ≠ "" → ∀ c : Char,
       (normalizeTarget s).data.head? = some c →
       c.isAlpha = true → c.isUpper = true) ∧
    (∀ s : String, hasLoneLowerI none (normalizeTarget s).data = false) ∧
    normalizeTarget (String.mk ['i', Char.ofNat 39, 'm', ' ', 'o', 'k'])
      = String.mk ['I', Char.ofNat 39, 'm', ' ', 'o', 'k'] ∧
    normalizeTarget "this is it" = "This is it" := by
  refine ⟨?_, ?_, by rfl, by rfl⟩
  · intro s hne c hc halpha
    obtain ⟨l⟩ := s
    cases l with
    | nil => exact absurd rfl hne
    | cons c0 rest =>
      have hdata : (normalizeTarget (String.mk (c0 :: rest))).data
          = jsUpperChar c0 :: replaceLoneI (some (jsUpperChar c0)) rest := by
        show replaceLoneI none (capFirst (c0 :: rest)) = _
        exact replaceLoneI_capFirst_cons c0 rest
      rw [hdata] at hc
      simp only [List.head?_cons, Option.some.injEq] at hc
      subst hc
      exact jsUpperChar_isUpper c0 halpha
  · intro s
    show hasLoneLowerI none (replaceLoneI none (capFirst s.data)) = false
    exact hasLoneLowerI_replaceLoneI (capFirst s.data) none none rfl

/-- Witness for C7 at concrete inputs: the first character of a
normalized nonempty string is uppercase when alphabetic, and the
normalization of a short sentence contains no standalone lowercase
i. -/
theorem normalizer_capitalization_rules_witness :
    ('A').isUpper = true ∧ hasLoneLowerI none (normalizeTarget "i win").data = false :=
  ⟨normalizer_capitalization_rules.1 "abc" (by decide) 'A' (by rfl) (by decide),
   normalizer_capitalization_rules.2.1 "i win"⟩

lemma retryWithBackoff_error_eq {V : Type} (op : Nat → Except JsError V)
    (i retries delay : Nat) (e : JsError) (h : op i = .error e) :
    retryWithBackoff op i retries delay =
      if isQuotaError e then
        match retries with
        | r + 1 =>
          match retryWithBackoff op (i + 1) r (delay * 2) with
          | (res, calls, d) => (res, calls + 1, delay + d)
        | 0 => (.error e, 1, 0)
      else (.error e, 1, 0) := by
  conv_lhs => unfold retryWithBackoff
  rw [h]

/-- Claim C3: contract of the backoff retrier. A successful operation
returns immediately with one invocation and no delay; a non-quota
failure propagates immediately with exactly one invocation; a quota
failure with retries remaining sleeps the current delay and recurses
with one fewer retry and doubled delay; a quota failure with no
retries left propagates; the quota classification accepts a numeric
429 code, or a message containing 429, quota, or resource_exhausted
case-insensitively, and rejects other errors; and under the default
policy (3 retries, initial delay 2000) an operation failing with a
quota error twice and then succeeding is invoked exactly 3 times with
total simulated delay 6000. -/
theorem retryWithBackoff_contract :
    (∀ (V : Type) (op : Nat → Except JsError V) (i retries delay : Nat) (v : V),
       op i = .ok v → retryWithBackoff op i retries delay = (.ok v, 1, 0)) ∧
    (∀ (V : Type) (op : Nat → Except JsError V) (i retries delay : Nat) (e : JsError),
       op i = .error e → isQuotaError e = false →
       retryWithBackoff op i retries delay = (.error e, 1, 0)) ∧
    (∀ (V : Type) (op : Nat → Except JsError V) (i r delay : Nat) (e : JsError),
       op i = .error e → isQuotaError e = true →
       retryWithBackoff op i (r + 1) delay =
         ((retryWithBackoff op (i + 1) r (delay * 2)).1,
          (retryWithBackoff op (i + 1) r (delay * 2)).2.1 + 1,
          delay + (retryWithBackoff op (i + 1) r (delay * 2)).2.2)) ∧
    (∀ (V : Type) (op : Nat → Except JsError V) (i delay : Nat) (e : JsError),
       op i = .error e → isQuotaError e = true →
       retryWithBackoff op i 0 delay = (.error e, 1, 0)) ∧
    (isQuotaError { status := some 429 } = true ∧
     isQuotaError (jsThrownError "HTTP 429 too many requests") = true ∧
     isQuotaError (jsThrownError "QUOTA exceeded") = true ∧
     isQuotaError (jsThrownError "RESOURCE_EXHAUSTED") = true ∧
     isQuotaError (jsThrownError "internal error") = false) ∧
    retryWithBackoff
      (fun n => if n < 2 then .error (jsThrownError "quota exceeded") else .ok 42)
      0 3 2000 = (.ok 42, 3, 6000) := by
  refine ⟨?_, ?_, ?_, ?_, ⟨by rfl, by rfl, by rfl, by rfl, by rfl⟩, by rfl⟩
  · intro V op i retries delay v h
    unfold retryWithBackoff
    rw [h]
  · intro V op i retries delay e h hq
    rw [retryWithBackoff_error_eq op i retries delay e h, hq]
    simp
  · intro V op i r delay e h hq
    rw [retryWithBackoff_error_eq op i (r + 1) delay e h, hq]
    simp
  · intro V op i delay e h hq
    rw [retryWithBackoff_error_eq op i 0 delay e h, hq]
    simp

/-- Witness for C3: the retrier contract applied to concrete
operations, discharging each classification hypothesis by
evaluation. -/
theorem retryWithBackoff_contract_witness :
    retryWithBackoff (fun _ => (.ok 7 : Except JsError Nat)) 0 3 2000 = (.ok 7, 1, 0) ∧
    retryWithBackoff (fun _ => (.error (jsThrownError "boom") : Except JsError Nat)) 0 3 2000
      = (.error (jsThrownError "boom"), 1, 0) ∧
    retryWithBackoff (fun _ => (.error (jsThrownError "quota") : Except JsError Nat)) 0 0 500
      = (.error (jsThrownError "quota"), 1, 0) :=
  ⟨retryWithBackoff_contract.1 Nat _ 0 3 2000 7 rfl,
   retryWithBackoff_contract.2.1 Nat _ 0 3 2000 (jsThrownError "boom") rfl (by rfl),
   retryWithBackoff_contract.2.2.2.1 Nat _ 0 500 (jsThrownError "quota") rfl (by rfl)⟩

/-! ## Lemmas about the parsed-response post-processing -/

lemma segmentsRawOf_nil {parsed : JsValue}
    (h : jsIsArray (jsGet parsed "segments") = false) :
    segmentsRawOf parsed = [] := by
  unfold segmentsRawOf
  cases hg : jsGet parsed "segments" <;> simp_all [jsIsArray]

lemma processParsedGemini_detectedLanguage (parsed : JsValue)
    (hint : SourceLanguage) (r : TranslationResult)
    (h : processParsedGemini parsed hint = some r) :
    r.detectedLanguage = jsOr (jsGet parsed "detectedLanguage") (.str hint.label) := by
  unfold processParsedGemini at h
  split at h
  · cases h
  · split at h
    · cases h
      rfl
    · cases h

lemma processParsedClaude_detectedLanguage (parsed : JsValue)
    (hint : SourceLanguage) (r : TranslationResult)
    (h : processParsedClaude parsed hint = some r) :
    r.detectedLanguage = jsOr (jsGet parsed "detectedLanguage")
      (.str (if hint = .AUTO then "Unknown" else hint.label)) := by
  unfold processParsedClaude at h
  split at h
  · cases h
  · split at h
    · cases h
      rfl
    · cases h

/-- Claim C5 counterexample: for the Gemini variant, a parsed response
without a detectedLanguage field under the auto hint yields the
Auto-Detect enum string, not Unknown as the claim requires. -/
theorem detectedLanguage_auto_default_cex :
    processParsedGemini (.obj [("segments", .arr [])]) .AUTO
      = some ⟨.str "Auto-Detect", []⟩ ∧
    JsValue.str "Auto-Detect" ≠ JsValue.str "Unknown" := by
  refine ⟨rfl, ?_⟩
  intro h
  injection h with h1
  exact absurd h1 (by decide)

/-- Claim C5 amended: when the parsed provider response has no
detectedLanguage field, the Claude variant defaults to the
caller-supplied hint, or Unknown when the hint is auto; the Gemini
variant always defaults to the hint enum string itself, including the
Auto-Detect value when the hint is auto. -/
theorem detectedLanguage_default_amended :
    ∀ (parsed : JsValue) (hint : SourceLanguage) (r : TranslationResult),
      jsGet parsed "detectedLanguage" = .undefined →
      (processParsedClaude parsed hint = some r →
        r.detectedLanguage = .str (if hint = .AUTO then "Unknown" else hint.label)) ∧
      (processParsedGemini parsed hint = some r →
        r.detectedLanguage = .str hint.label) := by
  intro parsed hint r hdl
  constructor
  · intro hp
    have h2 := processParsedClaude_detectedLanguage parsed hint r hp
    rw [hdl] at h2
    simpa [jsOr, jsTruthy] using h2
  · intro hp
    have h2 := processParsedGemini_detectedLanguage parsed hint r hp
    rw [hdl] at h2
    simpa [jsOr, jsTruthy] using h2

/-- Witness for the amended C5 at a concrete parsed response with no
detectedLanguage field. -/
theorem detectedLanguage_default_amended_witness :
    (processParsedClaude (.obj []) .AUTO = some ⟨.str "Unknown", []⟩ →
      (⟨.str "Unknown", []⟩ : TranslationResult).detectedLanguage
        = .str (if SourceLanguage.AUTO = .AUTO then "Unknown" else SourceLanguage.AUTO.label)) ∧
    (processParsedGemini (.obj []) .KOREAN = some ⟨.str "Korean", []⟩ →
      (⟨.str "Korean", []⟩ : TranslationResult).detectedLanguage
        = .str SourceLanguage.KOREAN.label) :=
  ⟨(detectedLanguage_default_amended (.obj []) .AUTO ⟨.str "Unknown", []⟩ rfl).1,
   (detectedLanguage_default_amended (.obj []) .KOREAN ⟨.str "Korean", []⟩ rfl).2⟩

/-- Claim C10: when the parsed provider response is a JSON object whose
segments field is missing or not an array, both variants return a
Success result with an empty segments list instead of a
malformed-response failure; a present segment without a target field
gets the empty string as its target. -/
theorem segments_missing_defaults_empty :
    (∀ (parsed : JsValue) (hint : SourceLanguage),
       jsIsObj parsed = true →
       jsIsArray (jsGet parsed "segments") = false →
       processParsedGemini parsed hint
         = some ⟨jsOr (jsGet parsed "detectedLanguage") (.str hint.label), []⟩ ∧
       processParsedClaude parsed hint
         = some ⟨jsOr (jsGet parsed "detectedLanguage")
             (.str (if hint = .AUTO then "Unknown" else hint.label)), []⟩) ∧
    (∀ hint : SourceLanguage,
       processParsedGemini (.obj [("segments", .arr [.obj [("source", .str "x")]])]) hint
         = some ⟨.str hint.label, [⟨.str "x", ""⟩]⟩) := by
  constructor
  · intro parsed hint hobj harr
    have hraw : segmentsRawOf parsed = [] := segmentsRawOf_nil harr
    have hnull : jsNullish parsed = false := by
      cases parsed <;> simp_all [jsIsObj, jsNullish]
    constructor
    · unfold processParsedGemini
      rw [hnull, hraw]
      rfl
    · unfold processParsedClaude
      rw [hnull, hraw]
      rfl
  · intro hint
    cases hint <;> rfl

/-- Witness for C10 at a concrete object whose segments field is a
string rather than an array. -/
theorem segments_missing_defaults_empty_witness :
    processParsedGemini (.obj [("segments", .str "oops")]) .SPANISH
      = some ⟨jsOr (jsGet (.obj [("segments", .str "oops")]) "detectedLanguage")
          (.str SourceLanguage.SPANISH.label), []⟩ ∧
    processParsedClaude (.obj [("segments", .str "oops")]) .SPANISH
      = some ⟨jsOr (jsGet (.obj [("segments", .str "oops")]) "detectedLanguage")
          (.str (if SourceLanguage.SPANISH = .AUTO then "Unknown"
                 else SourceLanguage.SPANISH.label)), []⟩ :=
  segments_missing_defaults_empty.1 (.obj [("segments", .str "oops")]) .SPANISH rfl rfl

/-! ## Lemmas about the pipelines -/

lemma extractTextFromImage_trace (a : Except JsError GenResponse) :
    (extractTextFromImage a).2 = [.ocrCall] := by
  cases a <;> rfl

/-- Claim C2: in the Claude translation strategy, extraction text that
is empty after trimming short-circuits the pipeline to a Success result
with Unknown language and no segments, without any translation call:
the trace holds the extraction call only. -/
theorem claude_empty_extraction_short_circuit :
    ∀ (hint : SourceLanguage) (apiKey envClaudeKey : Option String) (modelId : String)
      (jsonParse : String → Option JsValue) (ocrAttempt : Except JsError GenResponse)
      (claudeCall : Except JsError (Option String)) (t : String),
      optTruthy (jsOrOpt apiKey envClaudeKey) = true →
      (extractTextFromImage ocrAttempt).1 = .ok t →
      jsTrim t = "" →
      translateImageContentWithClaude hint apiKey envClaudeKey modelId jsonParse
          ocrAttempt claudeCall
        = (.ok ⟨.str "Unknown", []⟩, [.ocrCall]) := by
  intro hint apiKey envClaudeKey modelId jsonParse ocrAttempt claudeCall t hkey hocr htrim
  have hx : extractTextFromImage ocrAttempt = (.ok t, [.ocrCall]) := by
    rw [← hocr, ← extractTextFromImage_trace ocrAttempt]
  unfold translateImageContentWithClaude
  rw [hkey, hx]
  simp [htrim]

/-- Witness for C2: a concrete run whose extraction yields only
whitespace. -/
theorem claude_empty_extraction_short_circuit_witness :
    translateImageContentWithClaude .AUTO (some "ck") none "m"
        (fun _ => none) (.ok ⟨some "  "⟩) (.ok none)
      = (.ok ⟨.str "Unknown", []⟩, [.ocrCall]) :=
  claude_empty_extraction_short_circuit .AUTO (some "ck") none "m"
    (fun _ => none) (.ok ⟨some "  "⟩) (.ok none) "" rfl rfl rfl

/-- Claim C4: in the Gemini variant a quota-classified failure of the
pro (premium) attempt causes exactly one fallback call to the flash
(standard) tier with the standard credential, while a non-quota failure
propagates with zero fallback calls. -/
theorem gemini_pro_quota_fallback :
    (∀ (hint : SourceLanguage) (apiKey proApiKey envApiKey : Option String)
       (jsonParse : String → Option JsValue) (e : JsError)
       (flashAttempt : Except JsError GenResponse),
       isQuotaError e = true →
       (translateImageContent hint apiKey proApiKey envApiKey jsonParse
           (.error e) flashAttempt).2 =
         [.geminiTranslateCall .pro (resolveKey (jsOrOpt proApiKey apiKey) envApiKey),
          .geminiTranslateCall .flash (resolveKey apiKey envApiKey)]) ∧
    (∀ (hint : SourceLanguage) (apiKey proApiKey envApiKey : Option String)
       (jsonParse : String → Option JsValue) (e : JsError)
       (flashAttempt : Except JsError GenResponse),
       isQuotaError e = false →
       (translateImageContent hint apiKey proApiKey envApiKey jsonParse
           (.error e) flashAttempt).2 =
         [.geminiTranslateCall .pro (resolveKey (jsOrOpt proApiKey apiKey) envApiKey)] ∧
       (translateImageContent hint apiKey proApiKey envApiKey jsonParse
           (.error e) flashAttempt).1 = .error (geminiCatch e)) := by
  constructor
  · intro hint apiKey proApiKey envApiKey jsonParse e flashAttempt hq
    simp [translateImageContent, geminiTranslateStrategy, hq]
  · intro hint apiKey proApiKey envApiKey jsonParse e flashAttempt hq
    constructor
    · simp [translateImageContent, geminiTranslateStrategy, hq]
    · simp [translateImageContent, geminiTranslateStrategy, hq]

/-- Witness for C4: concrete quota and non-quota failures of the pro
attempt. -/
theorem gemini_pro_quota_fallback_witness :
    (translateImageContent .AUTO (some "std") (some "pro") none (fun _ => none)
        (.error (jsThrownError "quota hit")) (.ok ⟨none⟩)).2 =
      [.geminiTranslateCall .pro (resolveKey (jsOrOpt (some "pro") (some "std")) none),
       .geminiTranslateCall .flash (resolveKey (some "std") none)] ∧
    (translateImageContent .AUTO (some "std") (some "pro") none (fun _ => none)
        (.error (jsThrownError "boom")) (.ok ⟨none⟩)).2 =
      [.geminiTranslateCall .pro (resolveKey (jsOrOpt (some "pro") (some "std")) none)] :=
  ⟨gemini_pro_quota_fallback.1 .AUTO (some "std") (some "pro") none (fun _ => none)
     (jsThrownError "quota hit") (.ok ⟨none⟩) (by rfl),
   (gemini_pro_quota_fallback.2 .AUTO (some "std") (some "pro") none (fun _ => none)
     (jsThrownError "boom") (.ok ⟨none⟩) (by rfl)).1⟩

lemma translateImageContent_trace (hint : SourceLanguage)
    (apiKey proApiKey envApiKey : Option String)
    (jsonParse : String → Option JsValue)
    (proAttempt flashAttempt : Except JsError GenResponse) :
    (translateImageContent hint apiKey proApiKey envApiKey jsonParse
        proAttempt flashAttempt).2
      = (geminiTranslateStrategy (resolveKey (jsOrOpt proApiKey apiKey) envApiKey)
          (resolveKey apiKey envApiKey) proAttempt flashAttempt).2 := by
  rcases hS : geminiTranslateStrategy (resolveKey (jsOrOpt proApiKey apiKey) envApiKey)
      (resolveKey apiKey envApiKey) proAttempt flashAttempt with ⟨resp, trace⟩
  unfold translateImageContent
  dsimp only
  rw [hS]

lemma claude_trace_cases (hint : SourceLanguage) (apiKey envClaudeKey : Option String)
    (modelId : String) (jsonParse : String → Option JsValue)
    (ocrAttempt : Except JsError GenResponse)
    (claudeCall : Except JsError (Option String)) :
    ((translateImageContentWithClaude hint apiKey envClaudeKey modelId jsonParse
        ocrAttempt claudeCall).2 = []
       ∧ optTruthy (jsOrOpt apiKey envClaudeKey) = false) ∨
    (translateImageContentWithClaude hint apiKey envClaudeKey modelId jsonParse
        ocrAttempt claudeCall).2 = [.ocrCall] ∨
    (translateImageContentWithClaude hint apiKey envClaudeKey modelId jsonParse
        ocrAttempt claudeCall).2 = [.ocrCall, .claudeTranslateCall] := by
  by_cases hk : optTruthy (jsOrOpt apiKey envClaudeKey) = true
  · have htr := extractTextFromImage_trace ocrAttempt
    cases hx : (extractTextFromImage ocrAttempt).1 with
    | error msg =>
      have hpair : extractTextFromImage ocrAttempt = (.error msg, [.ocrCall]) := by
        rw [← hx, ← htr]
      right; left
      unfold translateImageContentWithClaude
      rw [hk, hpair]
      rfl
    | ok t =>
      have hpair : extractTextFromImage ocrAttempt = (.ok t, [.ocrCall]) := by
        rw [← hx, ← htr]
      by_cases hempty : (t == "" || (jsTrim t).length == 0) = true
      · right; left
        unfold translateImageContentWithClaude
        rw [hk, hpair]
        show (if t == "" || (jsTrim t).length == 0 then
            ((.ok ⟨.str "Unknown", []⟩ : Except String TranslationResult), [PipelineCall.ocrCall])
          else _).2 = [PipelineCall.ocrCall]
        rw [if_pos hempty]
      · right; right
        unfold translateImageContentWithClaude
        rw [hk, hpair]
        show (if t == "" || (jsTrim t).length == 0 then
            ((.ok ⟨.str "Unknown", []⟩ : Except String TranslationResult), [PipelineCall.ocrCall])
          else _).2 = [PipelineCall.ocrCall, PipelineCall.claudeTranslateCall]
        rw [if_neg hempty]
        rfl
  · left
    have hk2 : optTruthy (jsOrOpt apiKey envClaudeKey) = false := by
      rw [← Bool.not_eq_true]
      exact hk
    refine ⟨?_, hk2⟩
    unfold translateImageContentWithClaude
    rw [hk2]
    rfl

/-- Claim C1 counterexample: a run of the Gemini variant makes a
translation call with no preceding extraction call, so the claim that
the extraction provider is invoked first regardless of the selected
provider fails on the Gemini provider. -/
theorem pipeline_extraction_order_cex :
    (translateImageContent .AUTO (some "k") none none (fun _ => some (.obj []))
        (.ok ⟨some "x"⟩) (.ok ⟨none⟩)).2
      = [.geminiTranslateCall .pro (some "k")] ∧
    ocrPrecedes false [.geminiTranslateCall .pro (some "k")] = false :=
  ⟨rfl, rfl⟩

/-- Claim C1 amended: the Claude (text-in) variant always performs the
extraction call before its translation call (its trace starts with the
extraction call whenever a credential is present, and every translation
call is preceded by an extraction call); the Gemini (image-in) variant
never invokes the extraction provider, sending the image directly to
the translation model. -/
theorem pipeline_extraction_order_amended :
    (∀ (hint : SourceLanguage) (apiKey envClaudeKey : Option String) (modelId : String)
       (jsonParse : String → Option JsValue) (ocrAttempt : Except JsError GenResponse)
       (claudeCall : Except JsError (Option String)),
       ocrPrecedes false
         (translateImageContentWithClaude hint apiKey envClaudeKey modelId jsonParse
           ocrAttempt claudeCall).2 = true ∧
       (optTruthy (jsOrOpt apiKey envClaudeKey) = true →
         (translateImageContentWithClaude hint apiKey envClaudeKey modelId jsonParse
           ocrAttempt claudeCall).2.head? = some .ocrCall)) ∧
    (∀ (hint : SourceLanguage) (apiKey proApiKey envApiKey : Option String)
       (jsonParse : String → Option JsValue)
       (proAttempt flashAttempt : Except JsError GenResponse),
       PipelineCall.ocrCall ∉
         (translateImageContent hint apiKey proApiKey envApiKey jsonParse
           proAttempt flashAttempt).2) := by
  constructor
  · intro hint apiKey envClaudeKey modelId jsonParse ocrAttempt claudeCall
    rcases claude_trace_cases hint apiKey envClaudeKey modelId jsonParse
        ocrAttempt claudeCall with ⟨h1, h2⟩ | h1 | h1
    · refine ⟨by rw [h1]; rfl, ?_⟩
      intro hkey
      rw [hkey] at h2
      cases h2
    · exact ⟨by rw [h1]; rfl, fun _ => by rw [h1]; rfl⟩
    · exact ⟨by rw [h1]; rfl, fun _ => by rw [h1]; rfl⟩
  · intro hint apiKey proApiKey envApiKey jsonParse proAttempt flashAttempt
    rw [translateImageContent_trace]
    cases proAttempt with
    | ok r => simp [geminiTranslateStrategy]
    | error e =>
      by_cases hq : isQuotaError e = true
      · simp [geminiTranslateStrategy, hq]
      · simp [geminiTranslateStrategy, hq]

/-- Witness for the amended C1: a concrete Claude run whose trace
starts with the extraction call, and a concrete Gemini run whose trace
contains no extraction call. -/
theorem pipeline_extraction_order_amended_witness :
    (translateImageContentWithClaude .AUTO (some "ck") none "m" (fun _ => none)
        (.ok ⟨some "hi"⟩) (.ok none)).2.head? = some .ocrCall ∧
    PipelineCall.ocrCall ∉ (translateImageContent .AUTO (some "k") none none
        (fun _ => none) (.ok ⟨some "x"⟩) (.ok ⟨none⟩)).2 :=
  ⟨(pipeline_extraction_order_amended.1 .AUTO (some "ck") none "m" (fun _ => none)
      (.ok ⟨some "hi"⟩) (.ok none)).2 rfl,
   pipeline_extraction_order_amended.2 .AUTO (some "k") none none (fun _ => none)
      (.ok ⟨some "x"⟩) (.ok ⟨none⟩)⟩

/-- Claim C8: when a required credential is absent from both the
user-supplied settings and the process-level default, `translateItem`
sets the item directly to Error with a descriptive missing-credential
message, opens the settings surface, and performs zero network calls;
adding 3 files with no extraction credential yields 3 Error items and
no network calls. -/
theorem missing_credentials_error_no_network :
    (∀ (cfg : AppSettings) (provider : ModelProvider)
       (outcome : Except String TranslationResult),
       strTruthy cfg.geminiApiKey = false → optTruthy cfg.envApiKey = false →
       translateItemUpdates cfg provider outcome
           = ([.toError claudeKeyMissingMsg], true, 0) ∨
       translateItemUpdates cfg provider outcome
           = ([.toError geminiKeyMissingMsg], true, 0)) ∧
    (∀ (cfg : AppSettings) (outcome : Except String TranslationResult),
       strTruthy cfg.claudeApiKey = false → optTruthy cfg.envClaudeKey = false →
       translateItemUpdates cfg .CLAUDE outcome
         = ([.toError claudeKeyMissingMsg], true, 0)) ∧
    addFilesOp ⟨"", "", "", none, none⟩ .GEMINI
        [.error "x", .error "x", .error "x"] ⟨[], false, 0⟩
      = (⟨[⟨0, .ERROR, none, some geminiKeyMissingMsg⟩,
           ⟨1, .ERROR, none, some geminiKeyMissingMsg⟩,
           ⟨2, .ERROR, none, some geminiKeyMissingMsg⟩], true, 3⟩, 0) := by
  refine ⟨?_, ?_, by rfl⟩
  · intro cfg provider outcome h1 h2
    unfold translateItemUpdates
    split
    · exact Or.inl rfl
    · rw [h1, h2]
      exact Or.inr rfl
  · intro cfg outcome h1 h2
    unfold translateItemUpdates
    rw [if_pos]
    simp [h1, h2]

/-- Witness for C8: concrete settings with no extraction credential and
concrete settings with no Claude credential. -/
theorem missing_credentials_error_no_network_witness :
    (translateItemUpdates ⟨"ck", "", "", none, none⟩ .GEMINI (.error "x")
         = ([.toError claudeKeyMissingMsg], true, 0) ∨
     translateItemUpdates ⟨"ck", "", "", none, none⟩ .GEMINI (.error "x")
         = ([.toError geminiKeyMissingMsg], true, 0)) ∧
    translateItemUpdates ⟨"", "gk", "", none, none⟩ .CLAUDE (.ok ⟨.str "K", []⟩)
      = ([.toError claudeKeyMissingMsg], true, 0) :=
  ⟨missing_credentials_error_no_network.1 ⟨"ck", "", "", none, none⟩ .GEMINI
     (.error "x") rfl rfl,
   missing_credentials_error_no_network.2.1 ⟨"", "gk", "", none, none⟩
     (.ok ⟨.str "K", []⟩) rfl rfl⟩

/-! ## Orchestrator invariant machinery -/

/-- Terminal-item invariant: the status is terminal, a Success item
carries a result and no error, an Error item carries an error and no
result. -/
def itemOk (i : BatchItem) : Prop :=
  (i.status = .SUCCESS ∨ i.status = .ERROR) ∧
  (i.status = .SUCCESS → i.result.isSome = true ∧ i.error = none) ∧
  (i.status = .ERROR → i.error.isSome = true ∧ i.result = none)

/-- Orchestrator-state invariant maintained by every operation: every
item satisfies the terminal-item invariant, ids are below the fresh-id
counter, and ids are pairwise distinct. -/
def stateInv (s : OrchState) : Prop :=
  (∀ i ∈ s.items, itemOk i) ∧
  (∀ i ∈ s.items, i.id < s.nextId) ∧
  (s.items.map BatchItem.id).Nodup

lemma applyUpdate_id (u : ItemUpdate) (i : BatchItem) :
    (applyUpdate u i).id = i.id := by
  cases u <;> rfl

lemma applyUpdates_id (ups : List ItemUpdate) (i : BatchItem) :
    (applyUpdates ups i).id = i.id := by
  induction ups generalizing i with
  | nil => rfl
  | cons u rest ih =>
    show (applyUpdates rest (applyUpdate u i)).id = i.id
    rw [ih, applyUpdate_id]

lemma applyUpdates_translateItem_ok (cfg : AppSettings) (provider : ModelProvider)
    (outcome : Except String TranslationResult) (i : BatchItem)
    (h : i.result = none) :
    itemOk (applyUpdates (translateItemUpdates cfg provider outcome).1 i) := by
  unfold translateItemUpdates
  split
  · simp [applyUpdates, applyUpdate, itemOk, h]
  · split
    · simp [applyUpdates, applyUpdate, itemOk, h]
    · cases outcome with
      | ok r => simp [applyUpdates, applyUpdate, itemOk]
      | error msg => simp [applyUpdates, applyUpdate, itemOk, h]

lemma setItems_foldl_map (id : Nat) (ups : List ItemUpdate) (items : List BatchItem) :
    ups.foldl (fun its u => setItemsById id u its) items
      = items.map (fun i => if i.id = id then applyUpdates ups i else i) := by
  induction ups generalizing items with
  | nil =>
    show items = _
    have hf : (fun (i : BatchItem) => if i.id = id then applyUpdates [] i else i)
        = fun i => i := by
      funext i
      by_cases h : i.id = id
      · rw [if_pos h]
        rfl
      · rw [if_neg h]
    rw [hf]
    exact (List.map_id' items).symm
  | cons u rest ih =>
    show rest.foldl _ (setItemsById id u items) = _
    rw [ih]
    unfold setItemsById
    rw [List.map_map]
    congr 1
    funext i
    show (if (if i.id = id then applyUpdate u i else i).id = id
        then applyUpdates rest (if i.id = id then applyUpdate u i else i)
        else (if i.id = id then applyUpdate u i else i))
      = if i.id = id then applyUpdates (u :: rest) i else i
    by_cases h : i.id = id
    · rw [if_pos h, if_pos (by rw [applyUpdate_id]; exact h), if_pos h]
      rfl
    · rw [if_neg h, if_neg h, if_neg h]

lemma runItem_items (cfg : AppSettings) (provider : ModelProvider)
    (outcome : Except String TranslationResult) (id : Nat) (s : OrchState) :
    (runItem cfg provider outcome id s).1.items
      = s.items.map (fun i => if i.id = id then
          applyUpdates (translateItemUpdates cfg provider outcome).1 i else i) := by
  unfold runItem
  exact setItems_foldl_map id _ s.items

lemma runItem_nextId (cfg : AppSettings) (provider : ModelProvider)
    (outcome : Except String TranslationResult) (id : Nat) (s : OrchState) :
    (runItem cfg provider outcome id s).1.nextId = s.nextId := rfl

lemma runItem_map_id (cfg : AppSettings) (provider : ModelProvider)
    (outcome : Except String TranslationResult) (id : Nat) (s : OrchState) :
    (runItem cfg provider outcome id s).1.items.map BatchItem.id
      = s.items.map BatchItem.id := by
  rw [runItem_items, List.map_map]
  congr 1
  funext i
  show BatchItem.id (if i.id = id then applyUpdates _ i else i) = i.id
  by_cases h : i.id = id
  · rw [if_pos h]
    exact applyUpdates_id _ i
  · rw [if_neg h]

lemma mkNewItems_mem (k : Nat) : ∀ (startId : Nat) (i : BatchItem),
    i ∈ mkNewItems startId k →
    startId ≤ i.id ∧ i.id < startId + k ∧ i.status = .IDLE
      ∧ i.result = none ∧ i.error = none := by
  induction k with
  | zero => intro startId i hi; cases hi
  | succ k ih =>
    intro startId i hi
    rcases List.mem_cons.mp hi with hh | ht
    · subst hh
      refine ⟨Nat.le_refl _, ?_, rfl, rfl, rfl⟩
      show startId < startId + (k + 1)
      omega
    · obtain ⟨h1, h2, h3⟩ := ih (startId + 1) i ht
      exact ⟨by omega, by omega, h3⟩

lemma mkNewItems_map_id (k : Nat) : ∀ startId : Nat,
    (mkNewItems startId k).map BatchItem.id = List.range' startId k := by
  induction k with
  | zero => intro startId; rfl
  | succ k ih =>
    intro startId
    show startId :: (mkNewItems (startId + 1) k).map BatchItem.id = _
    rw [ih (startId + 1)]
    rfl

lemma dispatchAll_map_id (cfg : AppSettings) (provider : ModelProvider) :
    ∀ (os : List (Except String TranslationResult)) (id : Nat) (s : OrchState),
    (dispatchAll cfg provider os id s).1.items.map BatchItem.id
      = s.items.map BatchItem.id := by
  intro os
  induction os with
  | nil => intro id s; rfl
  | cons o rest ih =>
    intro id s
    show (dispatchAll cfg provider rest (id + 1) (runItem cfg provider o id s).1).1.items.map
        BatchItem.id = _
    rw [ih (id + 1) (runItem cfg provider o id s).1, runItem_map_id]

lemma dispatchAll_nextId (cfg : AppSettings) (provider : ModelProvider) :
    ∀ (os : List (Except String TranslationResult)) (id : Nat) (s : OrchState),
    (dispatchAll cfg provider os id s).1.nextId = s.nextId := by
  intro os
  induction os with
  | nil => intro id s; rfl
  | cons o rest ih =>
    intro id s
    show (dispatchAll cfg provider rest (id + 1) (runItem cfg provider o id s).1).1.nextId = _
    rw [ih (id + 1) (runItem cfg provider o id s).1, runItem_nextId]

lemma dispatchAll_itemOk (cfg : AppSettings) (provider : ModelProvider) :
    ∀ (os : List (Except String TranslationResult)) (id : Nat) (s : OrchState),
      (∀ i ∈ s.items, i.id < id → itemOk i) →
      (∀ i ∈ s.items, id ≤ i.id → i.result = none) →
      (∀ i ∈ s.items, i.id < id + os.length) →
      ∀ i ∈ (dispatchAll cfg provider os id s).1.items, itemOk i := by
  intro os
  induction os with
  | nil =>
    intro id s h1 h2 h3 i hi
    exact h1 i hi (by simpa using h3 i hi)
  | cons o rest ih =>
    intro id s h1 h2 h3 i hi
    have hi2 : i ∈ (dispatchAll cfg provider rest (id + 1)
        (runItem cfg provider o id s).1).1.items := hi
    refine ih (id + 1) (runItem cfg provider o id s).1 ?_ ?_ ?_ i hi2
    · intro j hj hlt
      rw [runItem_items] at hj
      rcases List.mem_map.mp hj with ⟨j0, hj0, rfl⟩
      by_cases hid : j0.id = id
      · rw [if_pos hid]
        exact applyUpdates_translateItem_ok cfg provider o j0
          (h2 j0 hj0 (by omega))
      · rw [if_neg hid]
        rw [if_neg hid] at hlt
        exact h1 j0 hj0 (by omega)
    · intro j hj hle
      rw [runItem_items] at hj
      rcases List.mem_map.mp hj with ⟨j0, hj0, rfl⟩
      by_cases hid : j0.id = id
      · exfalso
        rw [if_pos hid] at hle
        rw [applyUpdates_id] at hle
        omega
      · rw [if_neg hid] at hle ⊢
        exact h2 j0 hj0 (by omega)
    · intro j hj
      rw [runItem_items] at hj
      rcases List.mem_map.mp hj with ⟨j0, hj0, rfl⟩
      have hb := h3 j0 hj0
      by_cases hid : j0.id = id
      · rw [if_pos hid, applyUpdates_id]
        simp only [List.length_cons] at hb
        omega
      · rw [if_neg hid]
        simp only [List.length_cons] at hb
        omega

lemma addFilesOp_stateInv (cfg : AppSettings) (provider : ModelProvider)
    (outcomes : List (Except String TranslationResult)) (s : OrchState)
    (h : stateInv s) : stateInv (addFilesOp cfg provider outcomes s).1 := by
  obtain ⟨hok, hlt, hnd⟩ := h
  unfold addFilesOp
  refine ⟨?_, ?_, ?_⟩
  · apply dispatchAll_itemOk
    · intro i hi hilt
      rcases List.mem_append.mp hi with ho | hn
      · exact hok i ho
      · exfalso
        have := (mkNewItems_mem outcomes.length s.nextId i hn).1
        omega
    · intro i hi hile
      rcases List.mem_append.mp hi with ho | hn
      · exfalso
        have := hlt i ho
        omega
      · exact (mkNewItems_mem outcomes.length s.nextId i hn).2.2.2.1
    · intro i hi
      rcases List.mem_append.mp hi with ho | hn
      · have := hlt i ho
        omega
      · exact (mkNewItems_mem outcomes.length s.nextId i hn).2.1
  · intro i hi
    have hmem : i.id ∈ (dispatchAll cfg provider outcomes s.nextId
        { items := s.items ++ mkNewItems s.nextId outcomes.length,
          settingsOpen := s.settingsOpen,
          nextId := s.nextId + outcomes.length }).1.items.map BatchItem.id :=
      List.mem_map_of_mem _ hi
    rw [dispatchAll_map_id] at hmem
    rw [dispatchAll_nextId]
    rcases List.mem_map.mp hmem with ⟨j, hj, hje⟩
    rw [← hje]
    rcases List.mem_append.mp hj with ho | hn
    · have := hlt j ho
      show j.id < s.nextId + outcomes.length
      omega
    · have := (mkNewItems_mem outcomes.length s.nextId j hn).2.1
      exact this
  · rw [dispatchAll_map_id]
    show ((s.items ++ mkNewItems s.nextId outcomes.length).map BatchItem.id).Nodup
    rw [List.map_append, List.nodup_append, mkNewItems_map_id]
    refine ⟨hnd, List.nodup_range' _ _, ?_⟩
    intro a ha ha2
    rcases List.mem_map.mp ha with ⟨j, hj, hje⟩
    have h1 := hlt j hj
    have h2 := List.mem_range'_1.mp ha2
    omega

lemma nodup_id_unique {l : List BatchItem} (hnd : (l.map BatchItem.id).Nodup)
    {a b : BatchItem} (ha : a ∈ l) (hb : b ∈ l) (hid : a.id = b.id) : a = b :=
  List.inj_on_of_nodup_map hnd ha hb hid

lemma runItem_stateInv_retry (cfg : AppSettings) (provider : ModelProvider)
    (outcome : Except String TranslationResult) (id : Nat) (s : OrchState)
    (item : BatchItem) (h : stateInv s)
    (hfind : s.items.find? (fun i => i.id = id) = some item)
    (hstatus : item.status = .ERROR) :
    stateInv (runItem cfg provider outcome id s).1 := by
  obtain ⟨hok, hlt, hnd⟩ := h
  have hmem : item ∈ s.items := List.mem_of_find?_eq_some hfind
  have hid : item.id = id := by
    have := List.find?_some hfind
    simpa using this
  refine ⟨?_, ?_, ?_⟩
  · intro i hi
    rw [runItem_items] at hi
    rcases List.mem_map.mp hi with ⟨j, hj, rfl⟩
    by_cases hj_id : j.id = id
    · rw [if_pos hj_id]
      have hj_eq : j = item := nodup_id_unique hnd hj hmem (by rw [hj_id, hid])
      apply applyUpdates_translateItem_ok
      rw [hj_eq]
      exact ((hok item hmem).2.2 hstatus).2
    · rw [if_neg hj_id]
      exact hok j hj
  · intro i hi
    have hmem2 : i.id ∈ (runItem cfg provider outcome id s).1.items.map BatchItem.id :=
      List.mem_map_of_mem _ hi
    rw [runItem_map_id] at hmem2
    rw [runItem_nextId]
    rcases List.mem_map.mp hmem2 with ⟨j, hj, hje⟩
    rw [← hje]
    exact hlt j hj
  · rw [runItem_map_id]
    exact hnd

lemma removeOp_stateInv (id : Nat) (s : OrchState) (h : stateInv s) :
    stateInv (removeOp id s) := by
  obtain ⟨hok, hlt, hnd⟩ := h
  refine ⟨?_, ?_, ?_⟩
  · intro i hi
    exact hok i (List.mem_of_mem_filter hi)
  · intro i hi
    exact hlt i (List.mem_of_mem_filter hi)
  · exact List.Nodup.sublist (List.Sublist.map _ (List.filter_sublist _)) hnd

lemma reachable_stateInv : ∀ {s : OrchState}, Reachable s → stateInv s := by
  intro s h
  induction h with
  | init =>
    exact ⟨fun i hi => absurd hi (List.not_mem_nil i),
           fun i hi => absurd hi (List.not_mem_nil i), List.nodup_nil⟩
  | addFiles cfg provider outcomes s hs ih =>
    exact addFilesOp_stateInv cfg provider outcomes s ih
  | retry cfg provider outcome s id item hs hfind hstatus ih =>
    exact runItem_stateInv_retry cfg provider outcome id s item ih hfind hstatus
  | remove s id hs ih =>
    exact removeOp_stateInv id s ih
  | clear s hs ih =>
    exact ⟨fun i hi => absurd hi (List.not_mem_nil i),
           fun i hi => absurd hi (List.not_mem_nil i), List.nodup_nil⟩

/-- Claim C9: in every orchestrator state reachable through the
user-facing operations, each item is in a terminal state with exactly
one of result and error present (result present iff Success, error
present iff Error); and every `translateItem` run applies one of the
three allowed update sequences: directly to Error (validation
failure), or Analyzing followed by Success, or Analyzing followed by
Error, so statuses within one attempt follow Idle or Error to
Analyzing to Success or Error, with Analyzing re-entered only via
explicit retry (the retry operation requires an Error item). -/
theorem batchItem_lifecycle_invariant :
    (∀ s : OrchState, Reachable s → ∀ i ∈ s.items,
       (i.status = .SUCCESS ∨ i.status = .ERROR) ∧
       (i.status = .SUCCESS ↔ i.result.isSome = true ∧ i.error = none) ∧
       (i.status = .ERROR ↔ i.error.isSome = true ∧ i.result = none)) ∧
    (∀ (cfg : AppSettings) (provider : ModelProvider)
       (outcome : Except String TranslationResult),
       (∃ m, (translateItemUpdates cfg provider outcome).1 = [.toError m]) ∨
       (∃ r, (translateItemUpdates cfg provider outcome).1
           = [.toAnalyzing, .toSuccess r]) ∨
       (∃ m, (translateItemUpdates cfg provider outcome).1
           = [.toAnalyzing, .toError m])) := by
  constructor
  · intro s hs i hi
    obtain ⟨hterm, hsucc, herr⟩ := (reachable_stateInv hs).1 i hi
    refine ⟨hterm, ⟨hsucc, ?_⟩, ⟨herr, ?_⟩⟩
    · rintro ⟨h1, _⟩
      rcases hterm with h | h
      · exact h
      · exfalso
        rw [(herr h).2] at h1
        cases h1
    · rintro ⟨h1, _⟩
      rcases hterm with h | h
      · exfalso
        rw [(hsucc h).2] at h1
        cases h1
      · exact h
  · intro cfg provider outcome
    unfold translateItemUpdates
    split
    · exact Or.inl ⟨_, rfl⟩
    · split
      · exact Or.inl ⟨_, rfl⟩
      · cases outcome with
        | ok r => exact Or.inr (Or.inl ⟨r, rfl⟩)
        | error m => exact Or.inr (Or.inr ⟨m, rfl⟩)

/-- Witness for C9: the invariant applied to the item of a concrete
reachable state obtained by adding one file with a successful
outcome. -/
theorem batchItem_lifecycle_invariant_witness :
    ((⟨0, AppState.SUCCESS, some ⟨.str "Korean", []⟩, none⟩ : BatchItem).status = .SUCCESS ∨
     (⟨0, AppState.SUCCESS, some ⟨.str "Korean", []⟩, none⟩ : BatchItem).status = .ERROR) ∧
    ((⟨0, AppState.SUCCESS, some ⟨.str "Korean", []⟩, none⟩ : BatchItem).status = .SUCCESS ↔
      (⟨0, AppState.SUCCESS, some ⟨.str "Korean", []⟩, none⟩ : BatchItem).result.isSome = true ∧
      (⟨0, AppState.SUCCESS, some ⟨.str "Korean", []⟩, none⟩ : BatchItem).error = none) ∧
    ((⟨0, AppState.SUCCESS, some ⟨.str "Korean", []⟩, none⟩ : BatchItem).status = .ERROR ↔
      (⟨0, AppState.SUCCESS, some ⟨.str "Korean", []⟩, none⟩ : BatchItem).error.isSome = true ∧
      (⟨0, AppState.SUCCESS, some ⟨.str "Korean", []⟩, none⟩ : BatchItem).result = none) :=
  batchItem_lifecycle_invariant.1
    (addFilesOp ⟨"", "g", "", none, none⟩ .GEMINI [.ok ⟨.str "Korean", []⟩] ⟨[], false, 0⟩).1
    (Reachable.addFiles ⟨"", "g", "", none, none⟩ .GEMINI [.ok ⟨.str "Korean", []⟩]
      ⟨[], false, 0⟩ Reachable.init)
    ⟨0, AppState.SUCCESS, some ⟨.str "Korean", []⟩, none⟩
    (List.mem_singleton.mpr rfl)
